import Mathlib

/-!
Verification of `jinja2._speedups` (file `src/jinja2/_speedups.c`).

The C module implements HTML escaping over Python unicode strings:

* `escape_unicode` — the two-pass escaping algorithm over a `Py_UNICODE`
  buffer (the buffer is NUL-terminated; `in->length` does not count the
  terminator);
* `escape` — the policy entry point: numbers / bools / `None` bypass the
  scan and are wrapped directly in `Markup`; objects exposing `__html__`
  render themselves; everything else is coerced to unicode, escaped, and
  wrapped in `Markup`;
* `soft_unicode` — returns text values (including `Markup`, a unicode
  subtype) unchanged and converts everything else with `PyObject_Unicode`.

We model codepoints as `Nat` and unicode buffers as `List Nat`.  The C
escape tables are 63-entry arrays indexed by raw codepoint; we model them
as functions on `Fin 63`, so that every table access carries the bounds
proof that in the C source is the `*inp < ESCAPED_CHARS_TABLE_SIZE` check
evaluated before the array read.  The one undefined behaviour the copy
pass could in principle reach (running off the end of the input while
substitutions remain to be made, reading `escaped_chars_repl` at the NUL
terminator) is modelled as `Option.none`; we prove it is unreachable.
-/

set_option autoImplicit false

namespace Speedups

/-- C: `#define ESCAPED_CHARS_TABLE_SIZE 63`. -/
def ESCAPED_CHARS_TABLE_SIZE : Nat := 63

/-- C: `static Py_ssize_t escaped_chars_delta_len[63]` after `init_constants`:
zeroed by `memset`, then `'"'`, `'\''`, `'&'` set to 4 and `'<'`, `'>'` set
to 3 (the replacement lengths minus one).  Codepoints: `"` = 34, `'` = 39,
`&` = 38, `<` = 60, `>` = 62. -/
def escaped_chars_delta_len (i : Fin ESCAPED_CHARS_TABLE_SIZE) : Nat :=
  if i.val = 34 ∨ i.val = 39 ∨ i.val = 38 then 4
  else if i.val = 60 ∨ i.val = 62 then 3
  else 0

/-- Replacement for `"`: the characters of `"&#34;"`. -/
def quotRepl : List Nat := [38, 35, 51, 52, 59]

/-- Replacement for `'`: the characters of `"&#39;"`. -/
def aposRepl : List Nat := [38, 35, 51, 57, 59]

/-- Replacement for `&`: the characters of `"&amp;"`. -/
def ampRepl : List Nat := [38, 97, 109, 112, 59]

/-- Replacement for `<`: the characters of `"&lt;"`. -/
def ltRepl : List Nat := [38, 108, 116, 59]

/-- Replacement for `>`: the characters of `"&gt;"`. -/
def gtRepl : List Nat := [38, 103, 116, 59]

/-- C: `static Py_UNICODE *escaped_chars_repl[63]` after `init_constants`.
Entries other than the five escapable characters are never written and
stay NULL; we model them as `[]`. -/
def escaped_chars_repl (i : Fin ESCAPED_CHARS_TABLE_SIZE) : List Nat :=
  if i.val = 34 then quotRepl
  else if i.val = 39 then aposRepl
  else if i.val = 38 then ampRepl
  else if i.val = 60 then ltRepl
  else if i.val = 62 then gtRepl
  else []

/-- The guarded delta-table read
`*inp < ESCAPED_CHARS_TABLE_SIZE && escaped_chars_delta_len[*inp]`:
the bounds test is evaluated first and short-circuits, so the array is
read only with the proof `c < 63` in hand; out-of-range codepoints give 0
(false) without touching the table. -/
def deltaLookup (c : Nat) : Nat :=
  if h : c < ESCAPED_CHARS_TABLE_SIZE then escaped_chars_delta_len ⟨c, h⟩ else 0

/-- The guarded replacement-table read; in the C source
`escaped_chars_repl[*next_escp]` is only evaluated after the same bounds
test has already succeeded in the inner search loop. -/
def replLookup (c : Nat) : List Nat :=
  if h : c < ESCAPED_CHARS_TABLE_SIZE then escaped_chars_repl ⟨c, h⟩ else []

/-- The scan pass of `escape_unicode`:
`while (*(inp) || inp < inp_end) { if (*inp < 63 && delta_len[*inp]) { delta += ...; ++erepl; } ++inp; }`
The argument is the remaining buffer from `inp` on.  The buffer passed in
is always `s ++ [0]` (a `Py_UNICODE` buffer is NUL-terminated, and
`inp_end` points at the terminator), so `inp < inp_end` holds exactly when
the tail after the current character is nonempty.  Returns
`(delta, erepl)`.  The `[]` case is the loop reading past the terminator,
which the NUL at the end of every real buffer makes unreachable. -/
def scanLoop : List Nat → Nat × Nat
  | [] => (0, 0)
  | c :: rest =>
    if c ≠ 0 ∨ rest ≠ [] then
      let de := scanLoop rest
      if deltaLookup c ≠ 0 then (de.1 + deltaLookup c, de.2 + 1) else de
    else (0, 0)

/-- The inner search loop of the copy pass:
`next_escp = inp; while (next_escp < inp_end) { if (*next_escp < 63 && (delta_len = delta_len_table[*next_escp])) break; ++next_escp; }`
Splits the remaining input (here bounded by `inp_end`, not by the
terminator) into the run of non-escapable characters before the next
match and, if a match exists, the matched character and the rest. -/
def splitAtEsc : List Nat → List Nat × Option (Nat × List Nat)
  | [] => ([], none)
  | c :: rest =>
    if deltaLookup c ≠ 0 then ([], some (c, rest))
    else
      let pr := splitAtEsc rest
      (c :: pr.1, pr.2)

/-- The copy pass of `escape_unicode`: `while (erepl-- > 0) { ... }`
followed by the trailing copy `if (inp < inp_end) Py_UNICODE_COPY(...)`.
Each iteration copies the unescaped run before the next match, then
`delta_len + 1` characters of the replacement (`++delta_len` happened at
the break), and resumes after the matched character.  If the search loop
falls off `inp_end` with iterations still to go, the C code would read
`escaped_chars_repl` at the terminator — a NULL entry — with a stale
length; that undefined behaviour is `none` here. -/
def copyPass : Nat → List Nat → Option (List Nat)
  | 0, l => some l
  | e + 1, l =>
    match splitAtEsc l with
    | (pre, some (c, suf)) =>
      (copyPass e suf).map
        (fun t => pre ++ List.take (deltaLookup c + 1) (replLookup c) ++ t)
    | (_, none) => none

/-- C: `escape_unicode(PyUnicodeObject *in)`.  The input string `s` is
presented to the scan loop as its NUL-terminated buffer `s ++ [0]`.  If
the scan counted no matches (`!erepl`), the input object itself is
returned (`Py_INCREF(in); return in;`); otherwise a buffer of
`in->length + delta` characters is allocated and filled by the copy
pass. -/
def escape_unicode (s : List Nat) : Option (List Nat) :=
  let de := scanLoop (s ++ [0])
  if de.2 = 0 then some s else copyPass de.2 s

/-- The image of one codepoint under escaping, as the spec states it:
`"` ↦ `&#34;`, `'` ↦ `&#39;`, `&` ↦ `&amp;`, `<` ↦ `&lt;`, `>` ↦ `&gt;`,
every other codepoint ↦ itself. -/
def escape_char (c : Nat) : List Nat :=
  if c = 34 then quotRepl
  else if c = 39 then aposRepl
  else if c = 38 then ampRepl
  else if c = 60 then ltRepl
  else if c = 62 then gtRepl
  else [c]

/-- Spec-side description of escaping: the concatenation, in input order,
of the image of each codepoint. -/
def escape_spec (s : List Nat) : List Nat :=
  s.flatMap escape_char

/-- Spec-side delta: 4 for `"`, `'`, `&`, 3 for `<`, `>`, 0 otherwise. -/
def specDelta (c : Nat) : Nat :=
  if c = 34 ∨ c = 39 ∨ c = 38 then 4
  else if c = 60 ∨ c = 62 then 3
  else 0

/-- The scan pass as a plain structural traversal of the whole input:
what `scanLoop` computes on a NUL-terminated buffer. -/
def scanPass : List Nat → Nat × Nat
  | [] => (0, 0)
  | c :: rest =>
    let de := scanPass rest
    if deltaLookup c ≠ 0 then (de.1 + deltaLookup c, de.2 + 1) else de

/-! ### Table lemmas -/

theorem deltaLookup_of_ge (c : Nat) (h : ESCAPED_CHARS_TABLE_SIZE ≤ c) :
    deltaLookup c = 0 := by
  simp [deltaLookup, Nat.not_lt.mpr h]

theorem replLookup_of_ge (c : Nat) (h : ESCAPED_CHARS_TABLE_SIZE ≤ c) :
    replLookup c = [] := by
  simp [replLookup, Nat.not_lt.mpr h]

theorem deltaLookup_eq_specDelta (c : Nat) : deltaLookup c = specDelta c := by
  by_cases h : c < ESCAPED_CHARS_TABLE_SIZE
  · have hb : ∀ c' < ESCAPED_CHARS_TABLE_SIZE, deltaLookup c' = specDelta c' := by decide
    exact hb c h
  · rw [deltaLookup, dif_neg h, specDelta]
    have : ¬ c < 63 := h
    split_ifs with h1 h2 <;> omega

theorem deltaLookup_cases (c : Nat) (h : deltaLookup c ≠ 0) :
    c = 34 ∨ c = 39 ∨ c = 38 ∨ c = 60 ∨ c = 62 := by
  by_cases hlt : c < ESCAPED_CHARS_TABLE_SIZE
  · have hb : ∀ c' < ESCAPED_CHARS_TABLE_SIZE, deltaLookup c' ≠ 0 →
        c' = 34 ∨ c' = 39 ∨ c' = 38 ∨ c' = 60 ∨ c' = 62 := by decide
    exact hb c hlt h
  · exact absurd (deltaLookup_of_ge c (Nat.le_of_not_lt hlt)) h

theorem escape_char_clean (c : Nat) (h : deltaLookup c = 0) : escape_char c = [c] := by
  rw [escape_char]
  split_ifs with h1 h2 h3 h4 h5
  · subst h1; exact absurd h (by decide)
  · subst h2; exact absurd h (by decide)
  · subst h3; exact absurd h (by decide)
  · subst h4; exact absurd h (by decide)
  · subst h5; exact absurd h (by decide)
  · rfl

theorem escape_char_esc (c : Nat) (h : deltaLookup c ≠ 0) :
    escape_char c = List.take (deltaLookup c + 1) (replLookup c) := by
  rcases deltaLookup_cases c h with rfl | rfl | rfl | rfl | rfl <;> decide

theorem escape_char_length (c : Nat) : (escape_char c).length = 1 + specDelta c := by
  by_cases h : deltaLookup c = 0
  · rw [escape_char_clean c h, ← deltaLookup_eq_specDelta, h]
    rfl
  · rcases deltaLookup_cases c h with rfl | rfl | rfl | rfl | rfl <;> decide

/-! ### Scan-pass lemmas -/

/-- On a NUL-terminated buffer the scan loop's condition
`*inp || inp < inp_end` holds at every position of the input proper and
fails exactly at the terminator, so the loop traverses the whole input —
embedded NULs included — and nothing more. -/
theorem scanLoop_append_zero (s : List Nat) : scanLoop (s ++ [0]) = scanPass s := by
  induction s with
  | nil => simp [scanLoop, scanPass]
  | cons c rest ih =>
    have hne : rest ++ [0] ≠ [] := by simp
    simp [scanLoop, scanPass, hne, ih]

theorem scanPass_fst (s : List Nat) : (scanPass s).1 = (s.map deltaLookup).sum := by
  induction s with
  | nil => simp [scanPass]
  | cons c rest ih =>
    rw [scanPass]
    by_cases h : deltaLookup c = 0 <;> simp [h, ih]
    omega

theorem scanPass_snd (s : List Nat) :
    (scanPass s).2 = s.countP (fun c => decide (deltaLookup c ≠ 0)) := by
  induction s with
  | nil => simp [scanPass]
  | cons c rest ih =>
    rw [scanPass, List.countP_cons]
    by_cases h : deltaLookup c = 0 <;> simp [h, ih]

theorem scanPass_snd_zero (s : List Nat) (h : (scanPass s).2 = 0) :
    ∀ c ∈ s, deltaLookup c = 0 := by
  intro c hc
  rw [scanPass_snd, List.countP_eq_zero] at h
  simpa using h c hc

/-! ### Copy-pass lemmas -/

theorem splitAtEsc_cons_clean (c : Nat) (rest : List Nat) (h : deltaLookup c = 0) :
    splitAtEsc (c :: rest) = (c :: (splitAtEsc rest).1, (splitAtEsc rest).2) := by
  simp [splitAtEsc, h]

theorem copyPass_cons_clean (c : Nat) (rest : List Nat) (h : deltaLookup c = 0) :
    ∀ e, copyPass e (c :: rest) = (copyPass e rest).map (c :: ·) := by
  intro e
  cases e with
  | zero => simp [copyPass]
  | succ e =>
    rw [copyPass, copyPass, splitAtEsc_cons_clean c rest h]
    rcases hsp : splitAtEsc rest with ⟨pre, r⟩
    rcases r with _ | ⟨x, suf⟩
    · rfl
    · rcases hcp : copyPass e suf with _ | t
      all_goals simp [hcp, List.cons_append]

theorem copyPass_scanPass (s : List Nat) :
    copyPass (scanPass s).2 s = some (escape_spec s) := by
  induction s with
  | nil => simp [scanPass, copyPass, escape_spec]
  | cons c rest ih =>
    by_cases h : deltaLookup c = 0
    · have h2 : (scanPass (c :: rest)).2 = (scanPass rest).2 := by simp [scanPass, h]
      rw [h2, copyPass_cons_clean c rest h, ih]
      simp [escape_spec, escape_char_clean c h]
    · have h2 : (scanPass (c :: rest)).2 = (scanPass rest).2 + 1 := by simp [scanPass, h]
      have hsp : splitAtEsc (c :: rest) = ([], some (c, rest)) := by simp [splitAtEsc, h]
      rw [h2, copyPass, hsp]
      simp [ih, escape_spec, escape_char_esc c h]

/-- The central correctness fact: `escape_unicode` never reaches the
undefined branch and computes exactly the spec-side concatenation of
per-character images. -/
theorem escape_unicode_spec (s : List Nat) :
    escape_unicode s = some (escape_spec s) := by
  rw [escape_unicode, scanLoop_append_zero]
  by_cases h : (scanPass s).2 = 0
  · have := copyPass_scanPass s
    rw [h, copyPass] at this
    simpa [h] using this
  · simpa [h] using copyPass_scanPass s

theorem escape_spec_clean (s : List Nat) (h : ∀ c ∈ s, deltaLookup c = 0) :
    escape_spec s = s := by
  induction s with
  | nil => rfl
  | cons c rest ih =>
    rw [escape_spec, List.flatMap_cons, escape_char_clean c (h c (by simp)),
      ← escape_spec]
    rw [ih (fun x hx => h x (by simp [hx]))]
    rfl

theorem escape_spec_append (s t : List Nat) :
    escape_spec (s ++ t) = escape_spec s ++ escape_spec t := by
  simp [escape_spec]

theorem escape_spec_length (s : List Nat) :
    (escape_spec s).length = s.length + (s.map specDelta).sum := by
  induction s with
  | nil => rfl
  | cons c rest ih =>
    rw [escape_spec, List.flatMap_cons, ← escape_spec, List.length_append,
      escape_char_length, ih]
    simp
    omega

/-! ### The policy layer: `escape` and `soft_unicode`

Python values as `escape` distinguishes them.  `vstr s safe` is a unicode
object (`PyUnicode_Check` true); `safe = true` means it is an instance of
`jinja2.utils.Markup`, the unicode subtype whose `__html__` returns the
value itself.  `vobj r` is a non-text object without `__html__`, carrying
the text `r` that `PyObject_Unicode` produces for it (that conversion is
the host's, not this module's).  Objects other than `Markup` that define
`__html__` are outside the model: `Markup`, defined in `jinja2.utils`, is
the canonical such type here. -/
inductive Value where
  | vint : Int → Value
  | vbool : Bool → Value
  | vnone : Value
  | vstr : List Nat → Bool → Value
  | vobj : List Nat → Value
deriving DecidableEq

/-- C: `PyUnicode_Check(s)` — true exactly for unicode values, the
`Markup` subtype included. -/
def pyUnicodeCheck : Value → Bool
  | .vstr _ _ => true
  | _ => false

/-- Decimal text of a nonnegative integer, as codepoints. -/
def natStr (n : Nat) : List Nat :=
  (Nat.toDigits 10 n).map Char.toNat

/-- Text of an integer as Python renders it (45 is `-`). -/
def intStr (n : Int) : List Nat :=
  if n < 0 then 45 :: natStr n.natAbs else natStr n.toNat

/-- Text of a boolean: `True` / `False`. -/
def boolStr (b : Bool) : List Nat :=
  if b then [84, 114, 117, 101] else [70, 97, 108, 115, 101]

/-- Text of `None`. -/
def noneStr : List Nat := [78, 111, 110, 101]

/-- C: `PyObject_Unicode(v)` — the text representation of a value. -/
def strOf : Value → List Nat
  | .vint n => intStr n
  | .vbool b => boolStr b
  | .vnone => noneStr
  | .vstr s _ => s
  | .vobj r => r

/-- C: `escape(self, text)`.  Ints, longs, floats, bools and `None` are
wrapped in `Markup` without being scanned (`Markup(v)` builds the unicode
text of `v` tagged safe).  A value with `__html__` — here, `Markup`
itself — returns its own rendering.  Everything else is made unicode if
needed, run through `escape_unicode`, and wrapped in `Markup`.  (Floats
are not modelled separately; `vint` stands for the number bypass.) -/
def escape : Value → Option Value
  | .vint n => some (.vstr (intStr n) true)
  | .vbool b => some (.vstr (boolStr b) true)
  | .vnone => some (.vstr noneStr true)
  | .vstr s true => some (.vstr s true)
  | .vstr s false => (escape_unicode s).map (fun t => .vstr t true)
  | .vobj r => (escape_unicode r).map (fun t => .vstr t true)

/-- C: `soft_unicode(self, s)`: if `PyUnicode_Check` fails, return
`PyObject_Unicode(s)`; otherwise return `s` itself (incref, no copy, no
downcast of a `Markup` to plain unicode). -/
def soft_unicode (v : Value) : Value :=
  match v with
  | .vstr s safe => .vstr s safe
  | v => .vstr (strOf v) false

/-! ### Output safety: no forbidden characters, every `&` heads a replacement -/

/-- The list begins with one of the five replacement sequences. -/
def isReplPrefix (l : List Nat) : Prop :=
  (∃ u, l = quotRepl ++ u) ∨ (∃ u, l = aposRepl ++ u) ∨ (∃ u, l = ampRepl ++ u) ∨
  (∃ u, l = ltRepl ++ u) ∨ (∃ u, l = gtRepl ++ u)

theorem escape_spec_forbidden (s : List Nat) :
    ∀ x ∈ escape_spec s, x ≠ 34 ∧ x ≠ 39 ∧ x ≠ 60 ∧ x ≠ 62 := by
  intro x hx
  rw [escape_spec, List.mem_flatMap] at hx
  obtain ⟨c, _, hxc⟩ := hx
  by_cases h : deltaLookup c = 0
  · rw [escape_char_clean c h, List.mem_singleton] at hxc
    subst hxc
    refine ⟨?_, ?_, ?_, ?_⟩ <;> rintro rfl <;> exact absurd h (by decide)
  · rcases deltaLookup_cases c h with rfl | rfl | rfl | rfl | rfl <;>
      simp [escape_char, quotRepl, aposRepl, ampRepl, ltRepl, gtRepl] at hxc <;>
      omega

/-- Inside one block `r ++ t` of the output, with `r` one of the
replacement sequences: positions past 0 in `r` hold no `&`, and position 0
is the head of `r` itself. -/
theorem isReplPrefix_block (r t : List Nat) (hr : isReplPrefix (r ++ t))
    (hone : ∀ i < r.length, 0 < i → r.getD i 0 ≠ 38) :
    ∀ i, i < r.length → (r ++ t).getD i 0 = 38 → isReplPrefix ((r ++ t).drop i) := by
  intro i hlt hi
  rcases Nat.eq_zero_or_pos i with rfl | hpos
  · simpa using hr
  · rw [List.getD_append r t 0 i hlt] at hi
    exact absurd hi (hone i hlt hpos)

theorem isReplPrefix_append (b t : List Nat)
    (hb : ∀ i, i < b.length → (b ++ t).getD i 0 = 38 → isReplPrefix ((b ++ t).drop i))
    (ht : ∀ i, t.getD i 0 = 38 → isReplPrefix (t.drop i)) :
    ∀ i, (b ++ t).getD i 0 = 38 → isReplPrefix ((b ++ t).drop i) := by
  intro i hi
  by_cases h : i < b.length
  · exact hb i h hi
  · obtain ⟨j, rfl⟩ := Nat.exists_eq_add_of_le (Nat.le_of_not_lt h)
    rw [List.getD_append_right b t 0 _ (Nat.le_add_right _ _),
      Nat.add_sub_cancel_left] at hi
    rw [List.drop_append j]
    exact ht j hi

theorem escape_spec_amp (s : List Nat) :
    ∀ i, (escape_spec s).getD i 0 = 38 → isReplPrefix ((escape_spec s).drop i) := by
  induction s with
  | nil =>
    intro i hi
    rw [show escape_spec [] = [] from rfl, List.getD_nil] at hi
    exact absurd hi (by omega)
  | cons c rest ih =>
    rw [escape_spec, List.flatMap_cons, ← escape_spec]
    by_cases h : deltaLookup c = 0
    · rw [escape_char_clean c h, List.singleton_append]
      intro i hi
      cases i with
      | zero =>
        rw [List.getD_cons_zero] at hi
        subst hi
        exact absurd h (by decide)
      | succ j =>
        rw [List.getD_cons_succ] at hi
        rw [List.drop_succ_cons]
        exact ih j hi
    · rcases deltaLookup_cases c h with rfl | rfl | rfl | rfl | rfl
      · exact isReplPrefix_append _ _
          (isReplPrefix_block _ _ (Or.inl ⟨_, rfl⟩) (by decide)) ih
      · exact isReplPrefix_append _ _
          (isReplPrefix_block _ _ (Or.inr (Or.inl ⟨_, rfl⟩)) (by decide)) ih
      · exact isReplPrefix_append _ _
          (isReplPrefix_block _ _ (Or.inr (Or.inr (Or.inl ⟨_, rfl⟩))) (by decide)) ih
      · exact isReplPrefix_append _ _
          (isReplPrefix_block _ _ (Or.inr (Or.inr (Or.inr (Or.inl ⟨_, rfl⟩)))) (by decide)) ih
      · exact isReplPrefix_append _ _
          (isReplPrefix_block _ _ (Or.inr (Or.inr (Or.inr (Or.inr ⟨_, rfl⟩)))) (by decide)) ih

/-! ### Lemmas for non-idempotence -/

theorem amp_mem_escape_spec (s : List Nat) (c : Nat) (hc : c ∈ s)
    (h : deltaLookup c ≠ 0) : 38 ∈ escape_spec s := by
  rw [escape_spec, List.mem_flatMap]
  refine ⟨c, hc, ?_⟩
  rcases deltaLookup_cases c h with rfl | rfl | rfl | rfl | rfl <;> decide

theorem escape_spec_length_lt (t : List Nat) (h : 38 ∈ t) :
    t.length < (escape_spec t).length := by
  rw [escape_spec_length]
  have hmem : specDelta 38 ∈ t.map specDelta := List.mem_map_of_mem specDelta h
  have hle : specDelta 38 ≤ (t.map specDelta).sum :=
    List.single_le_sum (fun x _ => Nat.zero_le x) _ hmem
  have : (4 : Nat) ≤ (t.map specDelta).sum := by
    have h4 : specDelta 38 = 4 := by decide
    omega
  omega

/-! ### Claim theorems -/

/-- C1: for every input codepoint sequence, `escape_unicode` returns the
concatenation, in input order, of the image of each codepoint: `"` (34)
maps to `&#34;`, `'` (39) to `&#39;`, `&` (38) to `&amp;`, `<` (60) to
`&lt;`, `>` (62) to `&gt;`, and every other codepoint maps to itself. -/
theorem C1_escape_text_pointwise_image (s : List Nat) :
    escape_unicode s = some (s.flatMap escape_char) ∧
    escape_char 34 = [38, 35, 51, 52, 59] ∧
    escape_char 39 = [38, 35, 51, 57, 59] ∧
    escape_char 38 = [38, 97, 109, 112, 59] ∧
    escape_char 60 = [38, 108, 116, 59] ∧
    escape_char 62 = [38, 103, 116, 59] ∧
    ∀ c, c ≠ 34 → c ≠ 39 → c ≠ 38 → c ≠ 60 → c ≠ 62 → escape_char c = [c] := by
  refine ⟨escape_unicode_spec s, rfl, rfl, rfl, rfl, rfl, ?_⟩
  intro c h1 h2 h3 h4 h5
  rw [escape_char, if_neg h1, if_neg h2, if_neg h3, if_neg h4, if_neg h5]

theorem C1_escape_text_pointwise_image_witness :
    escape_unicode [84, 38, 74] = some ([84, 38, 74].flatMap escape_char) ∧
    escape_char 99 = [99] := by
  refine ⟨(C1_escape_text_pointwise_image [84, 38, 74]).1, ?_⟩
  exact (C1_escape_text_pointwise_image []).2.2.2.2.2.2 99 (by decide) (by decide)
    (by decide) (by decide) (by decide)

/-- C2: the length of the escaped output is the input length plus the sum
of the per-character deltas (4 for `"`, `'`, `&`; 3 for `<`, `>`; 0
otherwise), and the scan pass computes exactly that delta sum — the size
at which the output buffer `in->length + delta` is allocated before the
copy pass runs. -/
theorem C2_escape_text_length_invariant (s : List Nat) :
    ∃ t, escape_unicode s = some t ∧
      t.length = s.length + (s.map specDelta).sum ∧
      (scanLoop (s ++ [0])).1 = (s.map specDelta).sum := by
  refine ⟨escape_spec s, escape_unicode_spec s, escape_spec_length s, ?_⟩
  rw [scanLoop_append_zero, scanPass_fst,
    show deltaLookup = specDelta from funext deltaLookup_eq_specDelta]

/-- C3: the output of `escape_unicode` contains no occurrence of `"`,
`'`, `<` or `>`, and every `&` in it is the first character of one of the
five replacement sequences; the `escape` entry point wraps the escaped
text as a safe `Markup` value, and indeed every value it returns is
safe-tagged text. -/
theorem C3_output_safe (s t : List Nat) (h : escape_unicode s = some t) :
    (∀ x ∈ t, x ≠ 34 ∧ x ≠ 39 ∧ x ≠ 60 ∧ x ≠ 62) ∧
    (∀ i, t.getD i 0 = 38 → isReplPrefix (t.drop i)) ∧
    (∀ u, escape (Value.vstr u false) = some (Value.vstr (escape_spec u) true)) ∧
    (∀ v r, escape v = some r → ∃ w, r = Value.vstr w true) := by
  rw [escape_unicode_spec s] at h
  injection h with h
  subst h
  refine ⟨escape_spec_forbidden s, escape_spec_amp s, ?_, ?_⟩
  · intro u
    rw [escape, escape_unicode_spec u]
    rfl
  · intro v r hr
    cases v with
    | vint n => exact ⟨_, (Option.some_inj.mp hr).symm⟩
    | vbool b => exact ⟨_, (Option.some_inj.mp hr).symm⟩
    | vnone => exact ⟨_, (Option.some_inj.mp hr).symm⟩
    | vstr u safe =>
      cases safe with
      | true => exact ⟨_, (Option.some_inj.mp hr).symm⟩
      | false =>
        rw [escape, escape_unicode_spec u] at hr
        exact ⟨_, (Option.some_inj.mp hr).symm⟩
    | vobj u =>
      rw [escape, escape_unicode_spec u] at hr
      exact ⟨_, (Option.some_inj.mp hr).symm⟩

theorem C3_output_safe_witness :
    (∀ x ∈ [38, 108, 116, 59], x ≠ 34 ∧ x ≠ 39 ∧ x ≠ 60 ∧ x ≠ 62) ∧
    (∀ i, ([38, 108, 116, 59] : List Nat).getD i 0 = 38 →
      isReplPrefix (([38, 108, 116, 59] : List Nat).drop i)) ∧
    (∀ u, escape (Value.vstr u false) = some (Value.vstr (escape_spec u) true)) ∧
    (∀ v r, escape v = some r → ∃ w, r = Value.vstr w true) :=
  C3_output_safe [60] [38, 108, 116, 59] (by decide)

/-- C4: codepoints at or above `ESCAPED_CHARS_TABLE_SIZE` (63) never
reach the tables — the bounds test short-circuits both guarded lookups to
their defaults — and such codepoints are never replaced: an input of them
alone goes through both passes untouched. -/
theorem C4_table_bounds :
    (∀ c, ESCAPED_CHARS_TABLE_SIZE ≤ c → deltaLookup c = 0 ∧ replLookup c = []) ∧
    (∀ c, ESCAPED_CHARS_TABLE_SIZE ≤ c → escape_char c = [c]) ∧
    (∀ s, (∀ c ∈ s, ESCAPED_CHARS_TABLE_SIZE ≤ c) → escape_unicode s = some s) := by
  refine ⟨fun c h => ⟨deltaLookup_of_ge c h, replLookup_of_ge c h⟩,
    fun c h => escape_char_clean c (deltaLookup_of_ge c h), fun s h => ?_⟩
  rw [escape_unicode_spec s,
    escape_spec_clean s (fun c hc => deltaLookup_of_ge c (h c hc))]

theorem C4_table_bounds_witness :
    (deltaLookup 1000 = 0 ∧ replLookup 1000 = []) ∧
    escape_char 70000 = [70000] ∧
    escape_unicode [70000, 63] = some [70000, 63] :=
  ⟨C4_table_bounds.1 1000 (by decide), C4_table_bounds.2.1 70000 (by decide),
    C4_table_bounds.2.2 [70000, 63] (by decide)⟩

/-- C5: an input containing none of `"`, `'`, `&`, `<`, `>` is returned
unchanged — the scan pass counts zero matches, so the fast path hands the
input sequence itself back (in C, `Py_INCREF(in); return in;`, no
allocation). -/
theorem C5_identity_on_clean (s : List Nat)
    (h : ∀ c ∈ s, c ≠ 34 ∧ c ≠ 39 ∧ c ≠ 38 ∧ c ≠ 60 ∧ c ≠ 62) :
    escape_unicode s = some s ∧ (scanLoop (s ++ [0])).2 = 0 := by
  have hd : ∀ c ∈ s, deltaLookup c = 0 := by
    intro c hc
    by_contra hne
    obtain ⟨h1, h2, h3, h4, h5⟩ := h c hc
    rcases deltaLookup_cases c hne with rfl | rfl | rfl | rfl | rfl <;> omega
  constructor
  · rw [escape_unicode_spec s, escape_spec_clean s hd]
  · rw [scanLoop_append_zero, scanPass_snd, List.countP_eq_zero]
    intro c hc
    simp [hd c hc]

theorem C5_identity_on_clean_witness :
    escape_unicode [104, 101, 108, 108, 111] = some [104, 101, 108, 108, 111] ∧
    (scanLoop ([104, 101, 108, 108, 111] ++ [0])).2 = 0 :=
  C5_identity_on_clean [104, 101, 108, 108, 111] (by decide)

/-- C6: raw re-application is not idempotent: whenever the first output
contains an `&` (38) — in particular whenever the input does — escaping a
second time changes it; concretely `&` escapes to `&amp;` and again to
`&amp;amp;`. -/
theorem C6_not_idempotent :
    (escape_unicode [38] = some [38, 97, 109, 112, 59] ∧
      escape_unicode [38, 97, 109, 112, 59] =
        some [38, 97, 109, 112, 59, 97, 109, 112, 59] ∧
      ([38, 97, 109, 112, 59, 97, 109, 112, 59] : List Nat) ≠ [38, 97, 109, 112, 59]) ∧
    (∀ s t, escape_unicode s = some t → 38 ∈ t →
      ∃ u, escape_unicode t = some u ∧ u ≠ t) ∧
    (∀ s, 38 ∈ s →
      ∃ t u, escape_unicode s = some t ∧ escape_unicode t = some u ∧ u ≠ t) := by
  have key : ∀ t : List Nat, 38 ∈ t → ∃ u, escape_unicode t = some u ∧ u ≠ t := by
    intro t ht
    refine ⟨escape_spec t, escape_unicode_spec t, ?_⟩
    have := escape_spec_length_lt t ht
    intro he
    rw [he] at this
    omega
  refine ⟨by decide, fun s t hs ht => key t ht, fun s hs => ?_⟩
  obtain ⟨u, hu, hne⟩ := key (escape_spec s) (amp_mem_escape_spec s 38 hs (by decide))
  exact ⟨escape_spec s, u, escape_unicode_spec s, hu, hne⟩

theorem C6_not_idempotent_witness :
    ∃ t u, escape_unicode [38] = some t ∧ escape_unicode t = some u ∧ u ≠ t :=
  C6_not_idempotent.2.2 [38] (by decide)

/-- C7: `escape_unicode` is total — every input, the empty sequence
included, yields a result (`none`, the modelled undefined branch, is
never reached); the empty input exits through the fast path (zero
matches, no output buffer allocated) with the empty output. -/
theorem C7_total :
    (∀ s, ∃ t, escape_unicode s = some t) ∧
    escape_unicode [] = some [] ∧ (scanLoop ([] ++ [0])).2 = 0 :=
  ⟨fun s => ⟨escape_spec s, escape_unicode_spec s⟩, by decide, by decide⟩

/-- C8: numbers, booleans and `None` are wrapped as safe `Markup` text of
their representation without `escape_unicode` ever running on it; in
particular `escape 42` is the safe-tagged text `"42"` (codepoints 52,
50). -/
theorem C8_policy_bypass :
    (∀ n : Int, escape (Value.vint n) = some (Value.vstr (intStr n) true)) ∧
    (∀ b, escape (Value.vbool b) = some (Value.vstr (boolStr b) true)) ∧
    escape Value.vnone = some (Value.vstr noneStr true) ∧
    escape (Value.vint 42) = some (Value.vstr [52, 50] true) := by
  refine ⟨fun n => rfl, fun b => rfl, rfl, ?_⟩
  decide

/-- C9: `soft_unicode` returns any text value — the safe `Markup` subtype
included — unchanged, safety tag and all; every non-text value is
converted to its plain (unsafe) text representation. -/
theorem C9_soft_unicode_coercion :
    (∀ s safe, soft_unicode (Value.vstr s safe) = Value.vstr s safe) ∧
    (∀ v, pyUnicodeCheck v = false → soft_unicode v = Value.vstr (strOf v) false) := by
  refine ⟨fun s safe => rfl, fun v h => ?_⟩
  cases v with
  | vint n => rfl
  | vbool b => rfl
  | vnone => rfl
  | vstr s safe => exact absurd h (by simp [pyUnicodeCheck])
  | vobj r => rfl

theorem C9_soft_unicode_coercion_witness :
    soft_unicode (Value.vint 7) = Value.vstr (strOf (Value.vint 7)) false :=
  C9_soft_unicode_coercion.2 (Value.vint 7) (by decide)

/-- C10: the scan loop's condition `*inp || inp < inp_end` bounds the
pass by the input length, not by a NUL terminator: on the NUL-terminated
buffer it computes exactly the full-input traversal, an embedded NUL is
copied through unchanged, and escapable characters after it are still
replaced. -/
theorem C10_embedded_nul :
    (∀ s, scanLoop (s ++ [0]) = scanPass s) ∧
    (∀ s t, escape_unicode (s ++ 0 :: t) =
      some (escape_spec s ++ 0 :: escape_spec t)) ∧
    escape_unicode [0, 38, 0] = some [0, 38, 97, 109, 112, 59, 0] := by
  refine ⟨scanLoop_append_zero, fun s t => ?_, by decide⟩
  have hcons : escape_spec (0 :: t) = escape_char 0 ++ escape_spec t := by
    simp [escape_spec]
  rw [escape_unicode_spec, escape_spec_append, hcons, escape_char_clean 0 (by decide)]
  rfl

end Speedups
